import Mathlib

/-!
Shallow embedding of the repository `zephyr737/classification`:
`src/tools/image_transform.py` (functions `img_trans`, `gen_txt_dc`) and
`src/trainer/engine.py` (functions `train_one_epoch`, `evaluate`).

External collaborators (PIL decoding, the torch model/optimizer/scheduler,
timm accuracy) are abstracted as parameters or symbolic trace constructors;
the metrics aggregator `tools.utils.MetricLogger` is not part of the source
excerpt and is modelled from the spec.
-/

namespace Classif

/-! ## Python string primitives -/

/-- Substring containment on character lists: `pat in s` of Python.
`containsSub pat s = true` iff `pat` occurs contiguously in `s`. -/
def containsSub (pat : List Char) : List Char → Bool
  | [] => pat.isEmpty
  | c :: rest => pat.isPrefixOf (c :: rest) || containsSub pat rest

/-- Python `pat in s` on strings. -/
def pyContains (pat s : String) : Bool := containsSub pat.data s.data

/-- Left-to-right non-overlapping replacement of every occurrence of `pat`
by `rep`, the semantics of Python `str.replace` for a nonempty pattern.
The fuel argument is always called with the length of the scanned list,
which suffices since every step consumes at least one character. -/
def replFuel (pat rep : List Char) : Nat → List Char → List Char
  | _, [] => []
  | 0, s => s
  | fuel + 1, c :: rest =>
    if !pat.isEmpty && pat.isPrefixOf (c :: rest) then
      rep ++ replFuel pat rep fuel (rest.drop (pat.length - 1))
    else
      c :: replFuel pat rep fuel rest

/-- Python `s.replace(pat, rep)` (all occurrences), for nonempty `pat`. -/
def pyReplace (s pat rep : String) : String :=
  ⟨replFuel pat.data rep.data s.data.length s.data⟩

/-- Membership of a string in a list of strings. -/
def hasStr : List String → String → Bool
  | [], _ => false
  | x :: rest, s => if x = s then true else hasStr rest s

/-! ## Image batch converter: `img_trans` (src/tools/image_transform.py)

The PIL pixel pipeline is external; a decoded-and-transformed image is kept
as a symbolic term so that the exact operations applied are visible. -/

/-- PIL interpolation policies (`Image.NEAREST`, `Image.BILINEAR`, ...). -/
inductive Interp
  | nearest
  | bilinear
  | bicubic
  | lanczos
deriving DecidableEq, Repr

/-- Symbolic PIL image expressions: `Image.open(bytes)`, `.convert("RGB")`,
`.resize([w, h], interp)`. -/
inductive PILImg
  | opened (bytes : List Nat)
  | convertRGB (i : PILImg)
  | resize (i : PILImg) (w h : Nat) (interp : Interp)
deriving DecidableEq, Repr

/-- Trace of the single-file branch of `img_trans` (lines 15-26):
the byte streams handed to `Image.open`, the written file (destination path
and symbolic image) if any, and whether an OSError escaped. -/
structure FileRun where
  attempts : List (List Nat)
  written : Option (String × PILImg)
  errored : Bool
deriving DecidableEq, Repr

/-- Single-file branch of `img_trans` (`os.path.isfile(src)` true).
`decodeOk bs` abstracts whether `Image.open(bs).convert("RGB")` followed by
`resize` runs without OSError on the byte stream `bs`; `srcBytes` is the
content of `src`, `srcBase` is `os.path.basename(src)`.  On OSError the raw
bytes are re-read, `b"\xff" + b"\xd9"` is appended, and decoding is retried
once; a second OSError propagates (no further handling). -/
def img_trans_file (decodeOk : List Nat → Bool) (srcBytes : List Nat)
    (srcBase dst : String) : FileRun :=
  let dis_img := dst ++ "/" ++ pyReplace srcBase "png" "jpg"
  if decodeOk srcBytes then
    { attempts := [srcBytes]
      written := some (dis_img,
        PILImg.resize (PILImg.convertRGB (PILImg.opened srcBytes)) 960 540 Interp.bilinear)
      errored := false }
  else
    let repaired := srcBytes ++ [0xff, 0xd9]
    if decodeOk repaired then
      { attempts := [srcBytes, repaired]
        written := some (dis_img,
          PILImg.resize (PILImg.convertRGB (PILImg.opened repaired)) 960 540 Interp.bilinear)
        errored := false }
    else
      { attempts := [srcBytes, repaired], written := none, errored := true }

/-- Outcome of the decode-repair attempt on one directory entry:
first `Image.open` succeeds, or only the repaired retry succeeds, or both
fail (the OSError of the retry propagates). -/
inductive FileOutcome
  | ok
  | repaired
  | failBoth
deriving DecidableEq, Repr

/-- Trace of the directory branch of `img_trans` (lines 27-45). -/
structure DirRun where
  mkdirCalled : Bool
  processed : List String
  skipped : List String
  written : List String
  errored : Bool
deriving DecidableEq, Repr

/-- The `for img_src in imgs_src` loop (lines 31-45): per entry, compute
`dis_img`, skip when `'png' not in img_src or os.path.exists(dis_img)`,
otherwise attempt the decode-repair-resize; a `failBoth` outcome aborts the
loop with the escaping OSError.  The `img_new.save(dis_img)` call on line 45
is commented out in the source, so no entry is ever written.
Returns (processed entries, skipped entries, error flag). -/
def dirLoop (decodeOf : String → FileOutcome) (destFiles : List String) :
    List String → List String × List String × Bool
  | [] => ([], [], false)
  | e :: rest =>
    if !pyContains "png" e || hasStr destFiles (pyReplace e "png" "jpg") then
      let r := dirLoop decodeOf destFiles rest
      (r.1, e :: r.2.1, r.2.2)
    else
      match decodeOf e with
      | FileOutcome.failBoth => ([e], [], true)
      | _ =>
        let r := dirLoop decodeOf destFiles rest
        (e :: r.1, r.2.1, r.2.2)

/-- Directory branch of `img_trans` (`os.path.isfile(src)` false):
`mkdir(dst)` when absent, then the entry loop.  `destFiles` is the list of
file names initially present in `dst`; since the save call (line 45) is
commented out, `written` is empty and `destFiles` never changes during the
loop. -/
def img_trans_dir (decodeOf : String → FileOutcome) (destDirExists : Bool)
    (destFiles entries : List String) : DirRun :=
  let r := dirLoop decodeOf destFiles entries
  { mkdirCalled := !destDirExists
    processed := r.1
    skipped := r.2.1
    written := []
    errored := r.2.2 }

/-- The destination file name exactly as the spec words it: the `.png`
substring (with the dot) of the basename replaced by `.jpg`, no other part
of the name changed.  Used only to compare the spec against the code. -/
def specDestPath (dst srcBase : String) : String :=
  dst ++ "/" ++ pyReplace srcBase ".png" ".jpg"

/-! ## Label generation: `gen_txt_dc` (lines 48-62) -/

/-- The loop of `gen_txt_dc` over `os.listdir(root)`: builds the list of
lines `f"{img_n},{1}\n"` for names containing `"dog"`, `f"{img_n},{0}\n"`
for names containing `"cat"` (dog checked first), and raises
`ValueError` at the first name containing neither; the error value carries
the offending name.  The output file is written only after the loop
completes, so an error means no write at all. -/
def gen_txt_dc : List String → Except String (List String)
  | [] => Except.ok []
  | n :: rest =>
    if pyContains "dog" n then
      match gen_txt_dc rest with
      | Except.ok ls => Except.ok ((n ++ ",1\n") :: ls)
      | Except.error e => Except.error e
    else if pyContains "cat" n then
      match gen_txt_dc rest with
      | Except.ok ls => Except.ok ((n ++ ",0\n") :: ls)
      | Except.error e => Except.error e
    else
      Except.error n

/-- The content written to `path_label`: the lines on success, nothing when
the loop raised. -/
def genTxtWrite (names : List String) : Option (List String) :=
  match gen_txt_dc names with
  | Except.ok ls => some ls
  | Except.error _ => none

/-! ## Epoch loop controller (src/trainer/engine.py)

The model, criterion, optimizer, scheduler and device are external; what
they produce for a given batch (scalar loss, current learning rate) is
carried by the batch record.  The metrics aggregator is `tools.utils`,
which is not part of the source excerpt. -/

/-- A Python float scalar as produced by `loss.item()`: finite, NaN or an
infinity; `math.isfinite` distinguishes the first from the rest. -/
inductive FloatV
  | fin (q : ℚ)
  | nan
  | inf
  | neginf
deriving DecidableEq, Repr

/-- Python `math.isfinite`. -/
def FloatV.isFinite : FloatV → Bool
  | FloatV.fin _ => true
  | _ => false

/-- The rational carried by a finite float.  Only ever applied under an
`isFinite` guard, mirroring that the code uses the value after the check. -/
def FloatV.toRat : FloatV → ℚ
  | FloatV.fin q => q
  | _ => 0

/-- Modelled from the spec: one meter of the metrics aggregator
(`tools.utils.SmoothedValue`, absent from the excerpt) is a running
(count, sum) pair; `update(value, n)` adds `n` to the count and
`value * n` to the sum, with `n` defaulting to 1. -/
structure Meter where
  count : Nat
  total : ℚ
deriving DecidableEq, Repr

/-- Modelled from the spec: a fresh meter. -/
def Meter.empty : Meter := ⟨0, 0⟩

/-- Modelled from the spec: `SmoothedValue.update(v, n)`. -/
def updateMeter (m : Meter) (v : ℚ) (n : Nat) : Meter :=
  ⟨m.count + n, m.total + v * (n : ℚ)⟩

/-- Modelled from the spec: `global_avg = total / count`.  (Python raises
on a zero count; the claims below only read meters that were updated.) -/
def Meter.avg (m : Meter) : ℚ := m.total / (m.count : ℚ)

/-- Lookup by key in an insertion-ordered association list (a Python dict). -/
def lookupKey {β : Type} : List (String × β) → String → Option β
  | [], _ => none
  | (k, v) :: rest, key => if k = key then some v else lookupKey rest key

/-- Modelled from the spec: `MetricLogger.update` / `meters[k].update`:
the meters dict maps names to meters, a missing key starts from a fresh
meter (defaultdict), insertion order is preserved. -/
def updateLog (ms : List (String × Meter)) (k : String) (v : ℚ) (n : Nat) :
    List (String × Meter) :=
  match ms with
  | [] => [(k, updateMeter Meter.empty v n)]
  | (k', m) :: rest =>
    if k' = k then (k', updateMeter m v n) :: rest
    else (k', m) :: updateLog rest k v n

/-- The returned dict `{k: meter.global_avg for k, meter in meters.items()}`. -/
def statsOf (ms : List (String × Meter)) : List (String × ℚ) :=
  ms.map (fun p => (p.1, p.2.avg))

/-- One batch seen by `train_one_epoch`: its size and what the external
forward pass and optimizer yield on it (`loss.item()`, then
`optimizer.param_groups[0]["lr"]`).  The size is carried for stating
properties; the training loop itself never reads it. -/
structure TrainBatch where
  size : Nat
  loss : FloatV
  lr : ℚ
deriving DecidableEq, Repr

/-- Mutable state threaded through the training loop: the aggregator
meters, the number of `optimizer.step()` calls, and the batch index `j`. -/
structure TState where
  meters : List (String × Meter)
  optSteps : Nat
  j : Nat
deriving DecidableEq, Repr

/-- Result of `train_one_epoch`: either `sys.exit(code)` with the state at
that moment, or normal completion with the final state (the returned dict
is `statsOf` of its meters). -/
inductive TrainResult
  | exit (code : Nat) (st : TState)
  | done (st : TState)
deriving DecidableEq, Repr

/-- The per-batch work after the finiteness check passes (lines 54-74):
`zero_grad`, `lr_scheduler.step(epoch)`, backward, `optimizer.step()`,
synchronize, optional EMA/summary-writer, then
`metric_logger.update(loss=loss_value)` and
`metric_logger.update(lr=...)` (both with the default weight 1), `j += 1`. -/
def stepSt (st : TState) (b : TrainBatch) : TState :=
  { meters := updateLog (updateLog st.meters "loss" b.loss.toRat 1) "lr" b.lr 1
    optSteps := st.optSteps + 1
    j := st.j + 1 }

/-- The batch loop of `train_one_epoch` (lines 37-74): for each batch the
loss is computed, and `if not math.isfinite(loss_value): sys.exit(1)`
(lines 50-52) fires before any optimizer or aggregator action for that
batch; otherwise the rest of the body runs. -/
def trainLoop : List TrainBatch → TState → TrainResult
  | [], st => TrainResult.done st
  | b :: rest, st =>
    if b.loss.isFinite then trainLoop rest (stepSt st b)
    else TrainResult.exit 1 st

/-- `train_one_epoch` over a finite batch source: the aggregator starts
with the `lr` meter installed by `add_meter` (line 32), then the loop runs;
`synchronize_between_processes` is a no-op single-process. -/
def train_one_epoch (batches : List TrainBatch) : TrainResult :=
  trainLoop batches { meters := [("lr", Meter.empty)], optSteps := 0, j := 0 }

/-- The "loss" entry of the dict returned by `train_one_epoch`, when the
epoch completes. -/
def trainLossAvg (batches : List TrainBatch) : Option ℚ :=
  match train_one_epoch batches with
  | TrainResult.done st => lookupKey (statsOf st.meters) "loss"
  | TrainResult.exit _ _ => none

/-- The count of the "loss" meter in a training state: how many times the
aggregator was updated with a loss value. -/
def lossMeterCount (st : TState) : Nat :=
  ((lookupKey st.meters "loss").getD Meter.empty).count

/-- The per-batch loss mean weighted by batch size, exactly as the spec
words it; used only to compare the spec against the code. -/
def specWeightedMeanLoss (batches : List TrainBatch) : ℚ :=
  (batches.map (fun b => b.loss.toRat * (b.size : ℚ))).sum /
    ((batches.map (fun b => b.size)).sum : ℚ)

/-- A Python value as far as `evaluate`'s `topk` handling observes it:
an int or a tuple (`isinstance(topk, tuple)`, `len(topk)`, `(topk,)`). -/
inductive PyVal
  | int (n : Int)
  | tuple (l : List PyVal)

/-- Lines 91-95 of `evaluate`:
`if isinstance(topk, tuple) and len(topk) > 1: topk_enable = True`
`else: topk_enable = False; topk = (topk,)`.
Returns `(topk_enable, topk)` after normalization. -/
def normTopk (t : PyVal) : Bool × PyVal :=
  match t with
  | PyVal.tuple l => if 1 < l.length then (true, PyVal.tuple l) else (false, PyVal.tuple [PyVal.tuple l])
  | x => (false, PyVal.tuple [x])

/-- One batch seen by `evaluate`: its size (`images.shape[0]`), the scalar
loss, and the first two entries of the list returned by the external
`timm.utils.accuracy` call (`accs[0]`, `accs[1]`). -/
structure EvalBatch where
  size : Nat
  loss : ℚ
  accFst : ℚ
  accSnd : ℚ
deriving DecidableEq, Repr

/-- The per-batch aggregator updates of `evaluate` (lines 110-113):
`update(loss=loss.item())` (weight 1), `meters['acc1'].update(accs[0], n=batch_size)`,
and, only when `topk_enable`, `meters['acc5'].update(accs[1], n=batch_size)`. -/
def evalStep (en : Bool) (ms : List (String × Meter)) (b : EvalBatch) :
    List (String × Meter) :=
  let ms1 := updateLog ms "loss" b.loss 1
  let ms2 := updateLog ms1 "acc1" b.accFst b.size
  if en then updateLog ms2 "acc5" b.accSnd b.size else ms2

/-- Result of `evaluate`: the normalized topk value that is passed to the
`accuracy` routine (line 107), and the returned dict of global averages. -/
structure EvalRun where
  topkPassed : PyVal
  stats : List (String × ℚ)

/-- `evaluate` (lines 84-134): normalize `topk`, iterate the batches with a
fresh `MetricLogger`, return the dict of averages.  The loss/forward pass
and the accuracy computation are external and abstracted into the batch
records. -/
def evaluate (topk : PyVal) (batches : List EvalBatch) : EvalRun :=
  let n := normTopk topk
  { topkPassed := n.2
    stats := statsOf (batches.foldl (evalStep n.1) []) }

/-! ## Helper lemmas -/

/-- The directory loop, when no entry fails both decode attempts, processes
exactly the entries that pass the name filter and the existence check, and
skips the rest, in order. -/
theorem dirLoop_eq_filter (decodeOf : String → FileOutcome) (destFiles : List String)
    (entries : List String) (h : ∀ e ∈ entries, decodeOf e ≠ FileOutcome.failBoth) :
    dirLoop decodeOf destFiles entries =
      (entries.filter (fun e => pyContains "png" e && !hasStr destFiles (pyReplace e "png" "jpg")),
       entries.filter (fun e => !(pyContains "png" e && !hasStr destFiles (pyReplace e "png" "jpg"))),
       false) := by
  induction entries with
  | nil => rfl
  | cons e rest ih =>
    have he := h e (List.mem_cons_self e rest)
    have hrest : ∀ x ∈ rest, decodeOf x ≠ FileOutcome.failBoth :=
      fun x hx => h x (List.mem_cons_of_mem e hx)
    have ih' := ih hrest
    cases hc : (!pyContains "png" e || hasStr destFiles (pyReplace e "png" "jpg")) with
    | true =>
      have hp : (pyContains "png" e && !hasStr destFiles (pyReplace e "png" "jpg")) = false := by
        revert hc
        cases pyContains "png" e <;> cases hasStr destFiles (pyReplace e "png" "jpg") <;> simp
      simp [dirLoop, hc, ih', List.filter, hp]
    | false =>
      have hp : (pyContains "png" e && !hasStr destFiles (pyReplace e "png" "jpg")) = true := by
        revert hc
        cases pyContains "png" e <;> cases hasStr destFiles (pyReplace e "png" "jpg") <;> simp
      cases hd : decodeOf e with
      | failBoth => exact absurd hd he
      | ok => simp [dirLoop, hc, hd, ih', List.filter, hp]
      | repaired => simp [dirLoop, hc, hd, ih', List.filter, hp]

/-! ## Claim C1 -/

/-- C1 counterexample: a source directory with one entry `"a.png"` (so
M = 1 entries have `.png` in the name) and an empty destination yields 0
written files, not 1: the `save` call in the directory branch is commented
out in the source. -/
theorem C1_counterexample :
    (img_trans_dir (fun _ => FileOutcome.ok) true [] ["a.png"]).written.length = 0 ∧
    (["a.png"].filter (fun e => pyContains ".png" e)).length = 1 ∧
    (0 : Nat) ≠ 1 := by
  refine ⟨by decide, by decide, by decide⟩

/-- C1 (amended): for a directory source whose entries all decode, the run
writes no output file at all; the entries that contain `png` in the name
and whose replaced destination name is not already present are the ones
processed (decoded, repaired if needed, resized) — but never saved. -/
theorem C1_theorem (decodeOf : String → FileOutcome) (destDirExists : Bool)
    (destFiles entries : List String)
    (h : ∀ e ∈ entries, decodeOf e ≠ FileOutcome.failBoth) :
    (img_trans_dir decodeOf destDirExists destFiles entries).written = [] ∧
    (img_trans_dir decodeOf destDirExists destFiles entries).processed =
      entries.filter
        (fun e => pyContains "png" e && !hasStr destFiles (pyReplace e "png" "jpg")) := by
  constructor
  · rfl
  · simp [img_trans_dir, dirLoop_eq_filter decodeOf destFiles entries h]

/-- C1 witness: the amended statement evaluated on the concrete one-entry
directory. -/
theorem C1_witness :
    (img_trans_dir (fun _ => FileOutcome.ok) true [] ["a.png"]).written = [] ∧
    (img_trans_dir (fun _ => FileOutcome.ok) true [] ["a.png"]).processed = ["a.png"] := by
  have h := C1_theorem (fun _ => FileOutcome.ok) true [] ["a.png"]
    (by intro e he; simp)
  exact ⟨h.1, h.2.trans (by decide)⟩

/-! ## Claim C3 -/

/-- C3 counterexample: for the basename `"png.png"` the code replaces every
`png` substring (without the dot), writing to `d/jpg.jpg`, while the claim
(`.png` to `.jpg`, nothing else changed) demands `d/png.jpg`. -/
theorem C3_counterexample :
    (img_trans_file (fun _ => true) [] "png.png" "d").written =
      some ("d/jpg.jpg",
        PILImg.resize (PILImg.convertRGB (PILImg.opened [])) 960 540 Interp.bilinear) ∧
    specDestPath "d" "png.png" = "d/png.jpg" ∧
    ("d/jpg.jpg" : String) ≠ "d/png.jpg" := by
  refine ⟨by decide, by decide, by decide⟩

/-- C3 (amended): for a single-file source whose first decode succeeds,
`img_trans` opens the image once, converts it to RGB, resizes it to exactly
960×540 with bilinear interpolation, and writes the result to
`dst/basename` where every `png` substring of the basename (not `.png`) is
replaced by `jpg`. -/
theorem C3_theorem (decodeOk : List Nat → Bool) (srcBytes : List Nat)
    (srcBase dst : String) (h : decodeOk srcBytes = true) :
    img_trans_file decodeOk srcBytes srcBase dst =
      { attempts := [srcBytes]
        written := some (dst ++ "/" ++ pyReplace srcBase "png" "jpg",
          PILImg.resize (PILImg.convertRGB (PILImg.opened srcBytes)) 960 540 Interp.bilinear)
        errored := false } := by
  simp [img_trans_file, h]

/-- C3 witness: the amended statement evaluated on a concrete file. -/
theorem C3_witness :
    img_trans_file (fun _ => true) [0, 1] "a.png" "d" =
      { attempts := [[0, 1]]
        written := some ("d/a.jpg",
          PILImg.resize (PILImg.convertRGB (PILImg.opened [0, 1])) 960 540 Interp.bilinear)
        errored := false } := by
  have h := C3_theorem (fun _ => true) [0, 1] "a.png" "d" rfl
  exact h.trans (by decide)

/-! ## Claim C6 -/

/-- C6: when the first decode of a single-file source raises OSError, the
code reads the raw bytes, appends exactly the two marker bytes 0xFF 0xD9,
and retries once; if the retry also fails, nothing is written and the error
escapes (no further attempt: the attempt list has exactly the two
elements). -/
theorem C6_theorem (decodeOk : List Nat → Bool) (srcBytes : List Nat)
    (srcBase dst : String) (h1 : decodeOk srcBytes = false) :
    (img_trans_file decodeOk srcBytes srcBase dst).attempts =
      [srcBytes, srcBytes ++ [0xff, 0xd9]] ∧
    (decodeOk (srcBytes ++ [0xff, 0xd9]) = false →
      (img_trans_file decodeOk srcBytes srcBase dst).written = none ∧
      (img_trans_file decodeOk srcBytes srcBase dst).errored = true) := by
  cases h2 : decodeOk (srcBytes ++ [0xff, 0xd9]) with
  | true => simp [img_trans_file, h1, h2]
  | false => simp [img_trans_file, h1, h2]

/-- C6 witness: the statement evaluated on a stream that fails both decode
attempts. -/
theorem C6_witness :
    (img_trans_file (fun _ => false) [9] "a.png" "d").attempts = [[9], [9, 0xff, 0xd9]] ∧
    (img_trans_file (fun _ => false) [9] "a.png" "d").written = none ∧
    (img_trans_file (fun _ => false) [9] "a.png" "d").errored = true := by
  have h := C6_theorem (fun _ => false) [9] "a.png" "d" rfl
  exact ⟨h.1, (h.2 rfl).1, (h.2 rfl).2⟩

/-! ## Claim C7 -/

/-- C7: if the listing contains a name with neither `dog` nor `cat`, the
label pass raises ValueError at the first such name — independently of
everything after it — and the label file is not written at all. -/
theorem C7_theorem (pre : List String) (b : String) (rest : List String)
    (hpre : ∀ n ∈ pre, pyContains "dog" n = true ∨ pyContains "cat" n = true)
    (hb1 : pyContains "dog" b = false) (hb2 : pyContains "cat" b = false) :
    gen_txt_dc (pre ++ b :: rest) = Except.error b ∧
    genTxtWrite (pre ++ b :: rest) = none := by
  have herr : gen_txt_dc (pre ++ b :: rest) = Except.error b := by
    induction pre with
    | nil => simp [gen_txt_dc, hb1, hb2]
    | cons n pre' ih =>
      have hn := hpre n (List.mem_cons_self n pre')
      have hpre' : ∀ x ∈ pre', pyContains "dog" x = true ∨ pyContains "cat" x = true :=
        fun x hx => hpre x (List.mem_cons_of_mem n hx)
      have ih' := ih hpre'
      cases hn with
      | inl hd => simp [gen_txt_dc, hd, ih']
      | inr hc =>
        cases hd : pyContains "dog" n with
        | true => simp [gen_txt_dc, hd, ih']
        | false => simp [gen_txt_dc, hd, hc, ih']
  exact ⟨herr, by simp [genTxtWrite, herr]⟩

/-- C7 witness: the statement evaluated on a listing with an unrecognized
middle entry. -/
theorem C7_witness :
    gen_txt_dc (["dog1"] ++ "bird" :: ["cat1"]) = Except.error "bird" ∧
    genTxtWrite (["dog1"] ++ "bird" :: ["cat1"]) = none := by
  exact C7_theorem ["dog1"] "bird" ["cat1"] (by decide) (by decide) (by decide)

/-! ## Claim C8 -/

/-- C8 counterexample: re-running the directory conversion over a source
with the one entry `"a.png"` and an untouched destination does not skip the
entry: the first run wrote nothing (the save is commented out), so the
destination file still does not exist and the entry is fully re-processed —
the skipped list of the second run is empty. -/
theorem C8_counterexample :
    (img_trans_dir (fun _ => FileOutcome.ok) true
      ([] ++ (img_trans_dir (fun _ => FileOutcome.ok) true [] ["a.png"]).written)
      ["a.png"]).processed = ["a.png"] ∧
    (img_trans_dir (fun _ => FileOutcome.ok) true
      ([] ++ (img_trans_dir (fun _ => FileOutcome.ok) true [] ["a.png"]).written)
      ["a.png"]).skipped = [] := by
  refine ⟨by decide, by decide⟩

/-- C8 (amended): a second run over the same directory with the destination
as the first run left it produces no additional writes — but only because
the directory branch never writes at all (its save call is commented out);
the second run processes and skips exactly the same entries as the first
instead of skipping everything via the existence check. -/
theorem C8_theorem (decodeOf : String → FileOutcome) (destDirExists : Bool)
    (destFiles entries : List String) :
    (img_trans_dir decodeOf destDirExists
      (destFiles ++ (img_trans_dir decodeOf destDirExists destFiles entries).written)
      entries).written = [] ∧
    (img_trans_dir decodeOf destDirExists
      (destFiles ++ (img_trans_dir decodeOf destDirExists destFiles entries).written)
      entries).processed =
      (img_trans_dir decodeOf destDirExists destFiles entries).processed ∧
    (img_trans_dir decodeOf destDirExists
      (destFiles ++ (img_trans_dir decodeOf destDirExists destFiles entries).written)
      entries).skipped =
      (img_trans_dir decodeOf destDirExists destFiles entries).skipped := by
  refine ⟨rfl, ?_, ?_⟩ <;> simp [img_trans_dir]

/-! ## Claim C9 -/

/-- C9 counterexample: the name `"dogcat"` contains `cat`, yet its line is
`"dogcat,1"` (the `dog` branch is checked first), not the `"dogcat,0"` the
claim requires for names containing `cat`. -/
theorem C9_counterexample :
    pyContains "cat" "dogcat" = true ∧
    gen_txt_dc ["dogcat"] = Except.ok ["dogcat,1\n"] ∧
    ("dogcat,1\n" : String) ≠ "dogcat,0\n" := by
  refine ⟨by decide, rfl, by decide⟩

/-- C9 (amended): over a listing whose names each contain `dog` or `cat`,
the label pass succeeds and writes, in source iteration order, the line
`name,1` for names containing `dog` and `name,0` for names containing
`cat` but not `dog` — `dog` is checked first. -/
theorem C9_theorem (names : List String)
    (h : ∀ n ∈ names, pyContains "dog" n = true ∨ pyContains "cat" n = true) :
    gen_txt_dc names =
      Except.ok (names.map
        (fun n => if pyContains "dog" n then n ++ ",1\n" else n ++ ",0\n")) := by
  induction names with
  | nil => rfl
  | cons n rest ih =>
    have hn := h n (List.mem_cons_self n rest)
    have hrest : ∀ x ∈ rest, pyContains "dog" x = true ∨ pyContains "cat" x = true :=
      fun x hx => h x (List.mem_cons_of_mem n hx)
    have ih' := ih hrest
    cases hd : pyContains "dog" n with
    | true => simp [gen_txt_dc, hd, ih']
    | false =>
      have hc : pyContains "cat" n = true := by
        cases hn with
        | inl h1 => exact absurd h1 (by simp [hd])
        | inr h2 => exact h2
      simp [gen_txt_dc, hd, hc, ih']

/-- C9 witness: the amended statement evaluated on the spec's example
listing. -/
theorem C9_witness :
    gen_txt_dc ["dog1.png", "cat1.png"] = Except.ok ["dog1.png,1\n", "cat1.png,0\n"] := by
  have h := C9_theorem ["dog1.png", "cat1.png"] (by decide)
  exact h.trans (by rfl)

/-! ## Aggregator lemmas -/

/-- Updating a key makes it present with the incremented meter. -/
theorem lookupKey_updateLog_self (ms : List (String × Meter)) (k : String) (v : ℚ) (n : Nat) :
    lookupKey (updateLog ms k v n) k =
      some (updateMeter ((lookupKey ms k).getD Meter.empty) v n) := by
  induction ms with
  | nil => simp [updateLog, lookupKey]
  | cons p rest ih =>
    obtain ⟨ka, m⟩ := p
    by_cases h : ka = k
    · subst h; simp [updateLog, lookupKey]
    · simp [updateLog, lookupKey, h, ih]

/-- Updating a key leaves every other key unchanged. -/
theorem lookupKey_updateLog_other (ms : List (String × Meter)) (k k' : String)
    (v : ℚ) (n : Nat) (h : k' ≠ k) :
    lookupKey (updateLog ms k v n) k' = lookupKey ms k' := by
  induction ms with
  | nil => simp [updateLog, lookupKey, Ne.symm h]
  | cons p rest ih =>
    obtain ⟨ka, m⟩ := p
    by_cases hk : ka = k
    · subst hk; simp [updateLog, lookupKey, Ne.symm h]
    · by_cases hk2 : ka = k' <;> simp [updateLog, lookupKey, hk, hk2, h, ih]

/-- The returned dict has an entry for a key iff the meters do, holding the
global average. -/
theorem lookupKey_statsOf (ms : List (String × Meter)) (k : String) :
    lookupKey (statsOf ms) k = (lookupKey ms k).map Meter.avg := by
  induction ms with
  | nil => rfl
  | cons p rest ih =>
    obtain ⟨ka, m⟩ := p
    by_cases h : ka = k
    · simp [statsOf, lookupKey, h]
    · simp only [statsOf, List.map, lookupKey, h, if_neg h]
      exact ih

/-- An update never removes a present key. -/
theorem isSome_lookupKey_updateLog (ms : List (String × Meter)) (k k' : String)
    (v : ℚ) (n : Nat) (h : (lookupKey ms k').isSome) :
    (lookupKey (updateLog ms k v n) k').isSome := by
  by_cases hk : k' = k
  · subst hk; rw [lookupKey_updateLog_self]; rfl
  · rw [lookupKey_updateLog_other ms k k' v n hk]; exact h

/-- Mapping a function over an option preserves presence. -/
theorem isSome_map (f : Meter → ℚ) (o : Option Meter) : (o.map f).isSome = o.isSome := by
  cases o <;> rfl

/-! ## Training loop lemmas -/

/-- While all losses are finite the loop just folds the per-batch step. -/
theorem trainLoop_append (pre l : List TrainBatch) (st : TState)
    (h : ∀ b ∈ pre, b.loss.isFinite = true) :
    trainLoop (pre ++ l) st = trainLoop l (pre.foldl stepSt st) := by
  induction pre generalizing st with
  | nil => simp
  | cons b rest ih =>
    have hb := h b (List.mem_cons_self b rest)
    have hrest : ∀ x ∈ rest, x.loss.isFinite = true :=
      fun x hx => h x (List.mem_cons_of_mem b hx)
    simp [trainLoop, hb, ih (stepSt st b) hrest]

/-- A loop over all-finite losses completes normally with the folded state. -/
theorem trainLoop_done (l : List TrainBatch) (st : TState)
    (h : ∀ b ∈ l, b.loss.isFinite = true) :
    trainLoop l st = TrainResult.done (l.foldl stepSt st) := by
  induction l generalizing st with
  | nil => rfl
  | cons b rest ih =>
    have hb := h b (List.mem_cons_self b rest)
    have hrest : ∀ x ∈ rest, x.loss.isFinite = true :=
      fun x hx => h x (List.mem_cons_of_mem b hx)
    simp [trainLoop, hb, ih (stepSt st b) hrest]

/-- One `optimizer.step()` per processed batch. -/
theorem foldl_stepSt_optSteps (pre : List TrainBatch) (st : TState) :
    (pre.foldl stepSt st).optSteps = st.optSteps + pre.length := by
  induction pre generalizing st with
  | nil => simp
  | cons b rest ih =>
    rw [List.foldl_cons, ih]
    simp [stepSt]
    omega

/-- The batch index advances once per processed batch. -/
theorem foldl_stepSt_j (pre : List TrainBatch) (st : TState) :
    (pre.foldl stepSt st).j = st.j + pre.length := by
  induction pre generalizing st with
  | nil => simp
  | cons b rest ih =>
    rw [List.foldl_cons, ih]
    simp [stepSt]
    omega

/-- One loss-meter update per processed batch. -/
theorem lossMeterCount_stepSt (st : TState) (b : TrainBatch) :
    lossMeterCount (stepSt st b) = lossMeterCount st + 1 := by
  unfold lossMeterCount stepSt
  rw [lookupKey_updateLog_other _ _ _ _ _ (by decide : ("loss" : String) ≠ "lr"),
    lookupKey_updateLog_self]
  simp [updateMeter]

/-- The running total of the loss meter grows by the batch loss. -/
theorem lossMeterTotal_stepSt (st : TState) (b : TrainBatch) :
    ((lookupKey (stepSt st b).meters "loss").getD Meter.empty).total =
      ((lookupKey st.meters "loss").getD Meter.empty).total + b.loss.toRat := by
  unfold stepSt
  rw [lookupKey_updateLog_other _ _ _ _ _ (by decide : ("loss" : String) ≠ "lr"),
    lookupKey_updateLog_self]
  simp [updateMeter]

/-- Loss-meter count across a fold. -/
theorem foldl_stepSt_lossCount (pre : List TrainBatch) (st : TState) :
    lossMeterCount (pre.foldl stepSt st) = lossMeterCount st + pre.length := by
  induction pre generalizing st with
  | nil => simp
  | cons b rest ih =>
    rw [List.foldl_cons, ih, lossMeterCount_stepSt]
    simp only [List.length_cons]
    omega

/-- The whole loss meter after a nonempty fold: counted once per batch,
summing the per-batch losses. -/
theorem foldl_stepSt_lossMeter (pre : List TrainBatch) (st : TState) (h : pre ≠ []) :
    lookupKey (pre.foldl stepSt st).meters "loss" =
      some ⟨lossMeterCount st + pre.length,
        ((lookupKey st.meters "loss").getD Meter.empty).total +
          (pre.map (fun b => b.loss.toRat)).sum⟩ := by
  induction pre generalizing st with
  | nil => exact absurd rfl h
  | cons b rest ih =>
    cases rest with
    | nil =>
      simp only [List.foldl_cons, List.foldl_nil, List.map, List.sum_cons, List.sum_nil,
        List.length_cons, List.length_nil]
      unfold lossMeterCount stepSt
      rw [lookupKey_updateLog_other _ _ _ _ _ (by decide : ("loss" : String) ≠ "lr"),
        lookupKey_updateLog_self]
      simp only [updateMeter, Option.some.injEq, Meter.mk.injEq]
      exact ⟨trivial, by push_cast; ring⟩
    | cons c rs =>
      rw [List.foldl_cons, ih (stepSt st b) (by simp), lossMeterCount_stepSt,
        lossMeterTotal_stepSt]
      simp only [Option.some.injEq, Meter.mk.injEq, List.map, List.sum_cons, List.length_cons]
      exact ⟨by omega, by ring⟩

/-! ## Claim C2 -/

/-- C2: a non-finite batch loss makes `train_one_epoch` call `sys.exit(1)`
(a non-zero exit) at that batch: no optimizer step and no aggregator update
happen for it, and the result does not depend on any later batch. -/
theorem C2_theorem (pre : List TrainBatch) (b : TrainBatch) (rest : List TrainBatch)
    (hpre : ∀ x ∈ pre, x.loss.isFinite = true) (hb : b.loss.isFinite = false) :
    ∃ st, train_one_epoch (pre ++ b :: rest) = TrainResult.exit 1 st ∧
      st.optSteps = pre.length ∧ lossMeterCount st = pre.length ∧ st.j = pre.length ∧
      train_one_epoch (pre ++ b :: rest) = train_one_epoch (pre ++ [b]) := by
  refine ⟨pre.foldl stepSt ⟨[("lr", Meter.empty)], 0, 0⟩, ?_, ?_, ?_, ?_, ?_⟩
  · unfold train_one_epoch
    rw [trainLoop_append pre (b :: rest) _ hpre]
    simp [trainLoop, hb]
  · simp [foldl_stepSt_optSteps]
  · rw [foldl_stepSt_lossCount]
    simp [lossMeterCount, lookupKey, Meter.empty]
  · simp [foldl_stepSt_j]
  · unfold train_one_epoch
    rw [trainLoop_append pre (b :: rest) _ hpre, trainLoop_append pre [b] _ hpre]
    simp [trainLoop, hb]

/-- C2 witness: a NaN loss on the second of three batches exits with code 1
after exactly one optimizer step and one aggregator update, ignoring the
third batch. -/
theorem C2_witness :
    ∃ st, train_one_epoch ([⟨2, FloatV.fin 1, 1⟩] ++ ⟨2, FloatV.nan, 1⟩ :: [⟨2, FloatV.fin 1, 1⟩]) =
        TrainResult.exit 1 st ∧
      st.optSteps = 1 ∧ lossMeterCount st = 1 ∧ st.j = 1 ∧
      train_one_epoch ([⟨2, FloatV.fin 1, 1⟩] ++ ⟨2, FloatV.nan, 1⟩ :: [⟨2, FloatV.fin 1, 1⟩]) =
        train_one_epoch ([⟨2, FloatV.fin 1, 1⟩] ++ [⟨2, FloatV.nan, 1⟩]) := by
  exact C2_theorem [⟨2, FloatV.fin 1, 1⟩] ⟨2, FloatV.nan, 1⟩ [⟨2, FloatV.fin 1, 1⟩]
    (by intro x hx; simp at hx; subst hx; rfl) rfl

/-! ## Claim C4 -/

/-- C4 counterexample: with batch sizes 1 and 3 and losses 0 and 4, the
returned "loss" entry is the unweighted mean 2 (each `update(loss=...)`
uses the default weight 1), not the batch-size-weighted mean 3 the claim
requires. -/
theorem C4_counterexample :
    trainLossAvg [⟨1, FloatV.fin 0, 0⟩, ⟨3, FloatV.fin 4, 0⟩] = some 2 ∧
    specWeightedMeanLoss [⟨1, FloatV.fin 0, 0⟩, ⟨3, FloatV.fin 4, 0⟩] = 3 ∧
    (2 : ℚ) ≠ 3 := by
  refine ⟨?_, ?_, by norm_num⟩
  · simp [trainLossAvg, train_one_epoch, trainLoop, stepSt, updateLog, updateMeter,
      Meter.empty, Meter.avg, statsOf, lookupKey, FloatV.toRat, FloatV.isFinite]
    try norm_num
  · simp [specWeightedMeanLoss, FloatV.toRat]
    try norm_num

/-- C4 (amended): over a nonempty all-finite batch sequence the loss meter
is updated exactly once per batch and the returned "loss" entry is the
plain arithmetic mean of the per-batch loss values, each batch weighted 1
regardless of its size. -/
theorem C4_theorem (batches : List TrainBatch) (hne : batches ≠ [])
    (hfin : ∀ b ∈ batches, b.loss.isFinite = true) :
    ∃ st, train_one_epoch batches = TrainResult.done st ∧
      lossMeterCount st = batches.length ∧
      lookupKey (statsOf st.meters) "loss" =
        some ((batches.map (fun b => b.loss.toRat)).sum / (batches.length : ℚ)) := by
  refine ⟨batches.foldl stepSt ⟨[("lr", Meter.empty)], 0, 0⟩, ?_, ?_, ?_⟩
  · exact trainLoop_done batches _ hfin
  · rw [foldl_stepSt_lossCount]
    simp [lossMeterCount, lookupKey, Meter.empty]
  · rw [lookupKey_statsOf, foldl_stepSt_lossMeter batches _ hne]
    have h0 : lookupKey (TState.mk [("lr", Meter.empty)] 0 0).meters "loss" = none := by
      simp [lookupKey]
    rw [h0]
    simp [Meter.avg, lossMeterCount, lookupKey, Meter.empty]

/-- C4 witness: the amended statement evaluated on two batches with losses
1 and 3, returning mean 2. -/
theorem C4_witness :
    ∃ st, train_one_epoch [⟨2, FloatV.fin 1, 0⟩, ⟨2, FloatV.fin 3, 0⟩] = TrainResult.done st ∧
      lossMeterCount st = 2 ∧
      lookupKey (statsOf st.meters) "loss" = some 2 := by
  obtain ⟨st, h1, h2, h3⟩ := C4_theorem [⟨2, FloatV.fin 1, 0⟩, ⟨2, FloatV.fin 3, 0⟩]
    (by simp) (by intro x hx; simp at hx; rcases hx with h | h <;> subst h <;> rfl)
  refine ⟨st, h1, h2, ?_⟩
  rw [h3]
  norm_num [FloatV.toRat]

/-! ## Evaluation loop lemmas -/

/-- With multi-accuracy reporting disabled the fold never touches the
`acc5` meter. -/
theorem evalFold_acc5_false (bs : List EvalBatch) (ms : List (String × Meter)) :
    lookupKey (bs.foldl (evalStep false) ms) "acc5" = lookupKey ms "acc5" := by
  induction bs generalizing ms with
  | nil => rfl
  | cons b rest ih =>
    rw [List.foldl_cons, ih]
    unfold evalStep
    simp only [Bool.false_eq_true, if_false]
    rw [lookupKey_updateLog_other _ _ _ _ _ (by decide : ("acc5" : String) ≠ "acc1"),
      lookupKey_updateLog_other _ _ _ _ _ (by decide : ("acc5" : String) ≠ "loss")]

/-- A key present in the meters stays present through the evaluation fold. -/
theorem evalFold_isSome (en : Bool) (bs : List EvalBatch) (ms : List (String × Meter))
    (k : String) (h : (lookupKey ms k).isSome) :
    (lookupKey (bs.foldl (evalStep en) ms) k).isSome := by
  induction bs generalizing ms with
  | nil => exact h
  | cons b rest ih =>
    rw [List.foldl_cons]
    apply ih
    unfold evalStep
    cases en with
    | true =>
      simp only [if_true]
      exact isSome_lookupKey_updateLog _ _ _ _ _
        (isSome_lookupKey_updateLog _ _ _ _ _ (isSome_lookupKey_updateLog _ _ _ _ _ h))
    | false =>
      simp only [Bool.false_eq_true, if_false]
      exact isSome_lookupKey_updateLog _ _ _ _ _ (isSome_lookupKey_updateLog _ _ _ _ _ h)

/-- The first batch installs the `acc1` meter. -/
theorem evalStep_nil_acc1 (en : Bool) (b : EvalBatch) :
    (lookupKey (evalStep en [] b) "acc1").isSome := by
  unfold evalStep
  cases en <;> simp [updateLog, lookupKey, updateMeter]

/-- With multi-accuracy reporting enabled the first batch installs the
`acc5` meter. -/
theorem evalStep_nil_acc5 (b : EvalBatch) :
    (lookupKey (evalStep true [] b) "acc5").isSome := by
  unfold evalStep
  simp [updateLog, lookupKey, updateMeter]

/-! ## Claim C5 -/

/-- C5: over a nonempty batch source, `evaluate` with `topk=(1,5)` returns
a mapping containing both "acc1" and "acc5"; with the scalar `topk=1` it
wraps the scalar into a one-element tuple, returns a mapping containing
"acc1", and has no "acc5" entry. -/
theorem C5_theorem (batches : List EvalBatch) (hne : batches ≠ []) :
    (lookupKey (evaluate (PyVal.tuple [PyVal.int 1, PyVal.int 5]) batches).stats "acc1").isSome = true ∧
    (lookupKey (evaluate (PyVal.tuple [PyVal.int 1, PyVal.int 5]) batches).stats "acc5").isSome = true ∧
    (lookupKey (evaluate (PyVal.int 1) batches).stats "acc1").isSome = true ∧
    lookupKey (evaluate (PyVal.int 1) batches).stats "acc5" = none := by
  obtain ⟨b, rest, rfl⟩ : ∃ b rest, batches = b :: rest := by
    cases batches with
    | nil => exact absurd rfl hne
    | cons b r => exact ⟨b, r, rfl⟩
  have e15 : evaluate (PyVal.tuple [PyVal.int 1, PyVal.int 5]) (b :: rest) =
      ⟨PyVal.tuple [PyVal.int 1, PyVal.int 5],
        statsOf ((b :: rest).foldl (evalStep true) [])⟩ := rfl
  have e1 : evaluate (PyVal.int 1) (b :: rest) =
      ⟨PyVal.tuple [PyVal.int 1],
        statsOf ((b :: rest).foldl (evalStep false) [])⟩ := rfl
  refine ⟨?_, ?_, ?_, ?_⟩
  · rw [e15, lookupKey_statsOf, isSome_map, List.foldl_cons]
    exact evalFold_isSome true rest _ "acc1" (evalStep_nil_acc1 true b)
  · rw [e15, lookupKey_statsOf, isSome_map, List.foldl_cons]
    exact evalFold_isSome true rest _ "acc5" (evalStep_nil_acc5 b)
  · rw [e1, lookupKey_statsOf, isSome_map, List.foldl_cons]
    exact evalFold_isSome false rest _ "acc1" (evalStep_nil_acc1 false b)
  · rw [e1, lookupKey_statsOf, evalFold_acc5_false]
    rfl

/-- C5 witness: the statement evaluated on one concrete batch. -/
theorem C5_witness :
    (lookupKey (evaluate (PyVal.tuple [PyVal.int 1, PyVal.int 5]) [⟨2, 1, 1/2, 3/4⟩]).stats "acc1").isSome = true ∧
    (lookupKey (evaluate (PyVal.tuple [PyVal.int 1, PyVal.int 5]) [⟨2, 1, 1/2, 3/4⟩]).stats "acc5").isSome = true ∧
    (lookupKey (evaluate (PyVal.int 1) [⟨2, 1, 1/2, 3/4⟩]).stats "acc1").isSome = true ∧
    lookupKey (evaluate (PyVal.int 1) [⟨2, 1, 1/2, 3/4⟩]).stats "acc5" = none := by
  exact C5_theorem [⟨2, 1, 1/2, 3/4⟩] (by simp)

/-! ## Claim C10 -/

/-- C10: a one-element tuple `topk=(k,)` takes the single-value branch:
reporting is disabled and the value passed on to the accuracy routine is
the re-wrapped nested tuple `((k,),)`; multi-accuracy reporting is enabled
iff `topk` is a tuple of more than one element. -/
theorem C10_theorem :
    (∀ (v : PyVal) (batches : List EvalBatch),
      (evaluate (PyVal.tuple [v]) batches).topkPassed = PyVal.tuple [PyVal.tuple [v]]) ∧
    (∀ t : PyVal, ((normTopk t).1 = true ↔ ∃ l, t = PyVal.tuple l ∧ 1 < l.length)) := by
  constructor
  · intro v batches; rfl
  · intro t
    cases t with
    | int n => simp [normTopk]
    | tuple l => by_cases h : 1 < l.length <;> simp [normTopk, h]

end Classif
